import Mathlib

/-!
Verification development for the proof-of-work image uploader
(upload_image.py).  Shallow embedding: bytes are Nat values below 256,
byte strings are List Nat, text strings are List Char; a Python
exception is an explicit constructor rather than control flow.
-/

namespace UploadImage

/-- Result of a Python call that may raise an ordinary exception
(ValueError, IndexError, requests.HTTPError, ...). -/
inductive PyResult (α : Type) where
  | ok (a : α)
  | exc
deriving DecidableEq

/-- Outcome of a Python call that may additionally raise SystemExit via
sys.exit; SystemExit derives from BaseException, so a bare
`except Exception` clause does not catch it. -/
inductive PyOutcome (α : Type) where
  | ok (a : α)
  | exc
  | system_exit
deriving DecidableEq

/-- Lower-case hex digit for a nibble value, as produced by bytes.hex(). -/
def hexDigit (v : Nat) : Char :=
  if v < 10 then Char.ofNat (48 + v) else Char.ofNat (87 + v)

/-- bytes.hex() on a single byte: two lower-case hex digits. -/
def byteToHex (b : Nat) : List Char :=
  [hexDigit (b / 16), hexDigit (b % 16)]

/-- bytes.hex() on a byte string. -/
def bytesHex (bs : List Nat) : List Char :=
  (bs.map byteToHex).flatten

/-- Numeric value of one hex digit, accepting both cases, as
bytes.fromhex does; none for a non-hex character. -/
def hexDigitVal (c : Char) : Option Nat :=
  if 48 ≤ c.toNat ∧ c.toNat ≤ 57 then some (c.toNat - 48)
  else if 97 ≤ c.toNat ∧ c.toNat ≤ 102 then some (c.toNat - 87)
  else if 65 ≤ c.toNat ∧ c.toNat ≤ 70 then some (c.toNat - 55)
  else none

/-- bytes.fromhex: parses consecutive pairs of hex digits; none models
the ValueError raised on odd length or a non-hex character. -/
def fromhex : List Char → Option (List Nat)
  | [] => some []
  | [_] => none
  | c1 :: c2 :: rest =>
    match hexDigitVal c1, hexDigitVal c2, fromhex rest with
    | some hi, some lo, some bs => some ((16 * hi + lo) :: bs)
    | _, _, _ => none

/-- The `for i in range(full_bytes)` loop inside is_valid_hash: checks k
successive digest bytes starting at index i, returning some false at the
first nonzero byte; none models the IndexError raised by hash_bytes[i]
when i is out of range. -/
def checkBytesFrom (hash_bytes : List Nat) : Nat → Nat → Option Bool
  | _, 0 => some true
  | i, Nat.succ k =>
    match hash_bytes[i]? with
    | none => none
    | some b => if b ≠ 0 then some false else checkBytesFrom hash_bytes (i + 1) k

/-- is_valid_hash from upload_image.py: the first n bits of the digest
must be zero.  full_bytes = n / 8 whole bytes are checked one by one;
if n % 8 > 0 the byte at index n / 8 is tested against the mask
(0xFF << (8 - n % 8)) & 0xFF.  none models an IndexError. -/
def is_valid_hash (hash_bytes : List Nat) (n : Nat) : Option Bool :=
  match checkBytesFrom hash_bytes 0 (n / 8) with
  | none => none
  | some false => some false
  | some true =>
    if 0 < n % 8 then
      match hash_bytes[n / 8]? with
      | none => none
      | some b => some (b &&& ((0xFF <<< (8 - n % 8)) &&& 0xFF) == 0)
    else some true

/-- Bit number i of a byte sequence, reading most-significant-bit first
within each byte, across byte boundaries. -/
def nthBit (h : List Nat) (i : Nat) : Nat :=
  h.getD (i / 8) 0 / 2 ^ (7 - i % 8) % 2

/-- The first n bits of the byte sequence are all zero. -/
def firstBitsZero (h : List Nat) (n : Nat) : Prop :=
  ∀ i, i < n → nthBit h i = 0

/-!
SHA-256, as computed by hashlib.sha256(...).digest().  Words are Nat
values kept below 2 ^ 32 by explicit reduction modulo 4294967296.
-/

/-- Right rotation of a 32-bit word. -/
def rotr (x n : Nat) : Nat :=
  ((x >>> n) ||| (x <<< (32 - n))) % 4294967296

/-- SHA-256 round constants (decimal). -/
def K256 : List Nat :=
  [1116352408, 1899447441, 3049323471, 3921009573, 961987163, 1508970993,
   2453635748, 2870763221, 3624381080, 310598401, 607225278, 1426881987,
   1925078388, 2162078206, 2614888103, 3248222580, 3835390401, 4022224774,
   264347078, 604807628, 770255983, 1249150122, 1555081692, 1996064986,
   2554220882, 2821834349, 2952996808, 3210313671, 3336571891, 3584528711,
   113926993, 338241895, 666307205, 773529912, 1294757372, 1396182291,
   1695183700, 1986661051, 2177026350, 2456956037, 2730485921, 2820302411,
   3259730800, 3345764771, 3516065817, 3600352804, 4094571909, 275423344,
   430227734, 506948616, 659060556, 883997877, 958139571, 1322822218,
   1537002063, 1747873779, 1955562222, 2024104815, 2227730452, 2361852424,
   2428436474, 2756734187, 3204031479, 3329325298]

/-- Working state of the compression function: the eight 32-bit words. -/
structure SHAState where
  a : Nat
  b : Nat
  c : Nat
  d : Nat
  e : Nat
  f : Nat
  g : Nat
  hh : Nat
deriving DecidableEq

/-- SHA-256 initial hash value (decimal). -/
def H256 : SHAState :=
  ⟨1779033703, 3144134277, 1013904242, 2773480762,
   1359893119, 2600822924, 528734635, 1541459225⟩

/-- Choice function. -/
def chFn (e f g : Nat) : Nat := (e &&& f) ^^^ ((e ^^^ 0xFFFFFFFF) &&& g)

/-- Majority function. -/
def majFn (a b c : Nat) : Nat := (a &&& b) ^^^ (a &&& c) ^^^ (b &&& c)

/-- Big sigma 0. -/
def bigSigma0 (x : Nat) : Nat := rotr x 2 ^^^ rotr x 13 ^^^ rotr x 22

/-- Big sigma 1. -/
def bigSigma1 (x : Nat) : Nat := rotr x 6 ^^^ rotr x 11 ^^^ rotr x 25

/-- Small sigma 0 (message schedule). -/
def smallSigma0 (x : Nat) : Nat := rotr x 7 ^^^ rotr x 18 ^^^ (x >>> 3)

/-- Small sigma 1 (message schedule). -/
def smallSigma1 (x : Nat) : Nat := rotr x 17 ^^^ rotr x 19 ^^^ (x >>> 10)

/-- Group a byte string into 32-bit big-endian words. -/
def bytesToWords : List Nat → List Nat
  | b0 :: b1 :: b2 :: b3 :: rest =>
    (b0 * 16777216 + b1 * 65536 + b2 * 256 + b3) :: bytesToWords rest
  | _ => []

/-- One message-schedule extension step appended to the word list. -/
def scheduleWord (w : List Nat) : Nat :=
  let l := w.length
  (smallSigma1 (w.getD (l - 2) 0) + w.getD (l - 7) 0 +
   smallSigma0 (w.getD (l - 15) 0) + w.getD (l - 16) 0) % 4294967296

/-- Extend the 16 chunk words by k further schedule words. -/
def extendSchedule (w : List Nat) : Nat → List Nat
  | 0 => w
  | Nat.succ k => extendSchedule (w ++ [scheduleWord w]) k

/-- One round of the SHA-256 compression function; kw is the sum of the
round constant and the schedule word. -/
def shaRound (s : SHAState) (kw : Nat) : SHAState :=
  let t1 := (s.hh + bigSigma1 s.e + chFn s.e s.f s.g + kw) % 4294967296
  let t2 := (bigSigma0 s.a + majFn s.a s.b s.c) % 4294967296
  ⟨(t1 + t2) % 4294967296, s.a, s.b, s.c,
   (s.d + t1) % 4294967296, s.e, s.f, s.g⟩

/-- Compress one 64-byte chunk into the running hash state. -/
def compressChunk (s : SHAState) (chunk : List Nat) : SHAState :=
  let w := extendSchedule (bytesToWords chunk) 48
  let t := (K256.zip w).foldl (fun st p => shaRound st (p.1 + p.2)) s
  ⟨(s.a + t.a) % 4294967296, (s.b + t.b) % 4294967296,
   (s.c + t.c) % 4294967296, (s.d + t.d) % 4294967296,
   (s.e + t.e) % 4294967296, (s.f + t.f) % 4294967296,
   (s.g + t.g) % 4294967296, (s.hh + t.hh) % 4294967296⟩

/-- SHA-256 padding: 0x80, zero bytes to 56 mod 64, then the bit length
as 8 big-endian bytes. -/
def padMessage (msg : List Nat) : List Nat :=
  let len := msg.length
  let z := (120 - (len + 1) % 64) % 64
  msg ++ [0x80] ++ List.replicate z 0 ++
    ([56, 48, 40, 32, 24, 16, 8, 0].map (fun k => (8 * len) >>> k % 256))

/-- Split a byte string into 64-byte chunks; the fuel argument bounds
the number of chunks and is passed as the byte length, which always
suffices since each step consumes 64 bytes. -/
def chunksFuel : Nat → List Nat → List (List Nat)
  | _, [] => []
  | 0, _ => []
  | Nat.succ fuel, l => l.take 64 :: chunksFuel fuel (l.drop 64)

/-- Split a byte string into 64-byte chunks. -/
def chunks64 (l : List Nat) : List (List Nat) :=
  chunksFuel l.length l

/-- Big-endian bytes of one 32-bit word. -/
def wordBytes (w : Nat) : List Nat :=
  [w >>> 24 % 256, w >>> 16 % 256, w >>> 8 % 256, w % 256]

/-- Serialize the final hash state to the 32 digest bytes. -/
def stateBytes (s : SHAState) : List Nat :=
  wordBytes s.a ++ wordBytes s.b ++ wordBytes s.c ++ wordBytes s.d ++
  wordBytes s.e ++ wordBytes s.f ++ wordBytes s.g ++ wordBytes s.hh

/-- hashlib.sha256(msg).digest(). -/
def sha256 (msg : List Nat) : List Nat :=
  stateBytes ((chunks64 (padMessage msg)).foldl compressChunk H256)

/-!
The solver: find_suffix and its worker loop from upload_image.py.
Randomness is modelled by an arbitrary stream rng of byte draws, the
image of random.randint(0, 255); the unbounded while-True loop is
modelled with explicit fuel, none meaning the loop is still running.
-/

/-- The 64-byte random candidate drawn at attempt k:
bytes([random.randint(0, 255) for _ in range(64)]). -/
def candidate (rng : Nat → Nat) (k : Nat) : List Nat :=
  (List.range 64).map (fun j => rng (64 * k + j) % 256)

/-- The worker thread loop from find_suffix: draw a 64-byte candidate,
hex it, hash the decoded concatenation of pref and the candidate hex,
and return (True, suff) once is_valid_hash accepts the digest.  The
first Nat argument is the attempt index, the second the remaining fuel;
none means the loop has not terminated within the fuel. -/
def worker (pref : List Char) (n : Nat) (rng : Nat → Nat) :
    Nat → Nat → Option (PyResult (Bool × List Char))
  | _, 0 => none
  | k, Nat.succ fuel =>
    match fromhex (pref ++ bytesHex (candidate rng k)) with
    | none => some PyResult.exc
    | some bs =>
      match is_valid_hash (sha256 bs) n with
      | none => some PyResult.exc
      | some true => some (PyResult.ok (true, bytesHex (candidate rng k)))
      | some false => worker pref n rng (k + 1) fuel

/-- Python (os.cpu_count() or 5): cpu_count is None or a positive count;
a falsy value falls back to 5. -/
def cpu_hint (cpu_count : Option Nat) : Nat :=
  match cpu_count with
  | none => 5
  | some c => if c = 0 then 5 else c

/-- num_workers = min(32, (os.cpu_count() or 5) - 1) from find_suffix. -/
def num_workers (cpu_count : Option Nat) : Nat :=
  min 32 (cpu_hint cpu_count - 1)

/-- find_suffix: submit num_workers workers and return the suffix of the
first future that completes.  rngs gives each worker its seeded random
stream; first_done selects which submitted worker completes first; with
no workers the as_completed loop body never runs and the trailing
return of the empty string is reached. -/
def find_suffix (pref : List Char) (n : Nat) (task_id : List Char)
    (cpu_count : Option Nat) (rngs : Nat → Nat → Nat)
    (first_done : Nat) (fuel : Nat) : Option (PyResult (List Char)) :=
  match List.range (num_workers cpu_count) with
  | [] => some (PyResult.ok [])
  | _ :: _ =>
    match worker pref n (rngs (first_done % num_workers cpu_count)) 0 fuel with
    | none => none
    | some PyResult.exc => some PyResult.exc
    | some (PyResult.ok (b, s)) => if b then some (PyResult.ok s) else none

/-!
The per-file orchestration: get_challenge, upload_image, process_file
and the multi-file loop in main, with network responses supplied by an
environment and network requests recorded as events.
-/

/-- A network request issued while processing one file. -/
inductive NetEvent where
  | challenge_get
  | upload_post
deriving DecidableEq

/-- The challenge response: HTTP status and decoded JSON body fields. -/
structure ChallengeHttp where
  status : Nat
  success : Bool
  n : Nat
  pref : List Char
  task_id : List Char
  ip : List Char
deriving DecidableEq

/-- The upload response: HTTP status and decoded JSON body fields. -/
structure UploadHttp where
  status : Nat
  success : Bool
  url : List Char
deriving DecidableEq

/-- get_challenge: issues the GET, then calls sys.exit(1) on a non-200
status or a falsy success field. -/
def get_challenge (r : ChallengeHttp) : PyOutcome ChallengeHttp × List NetEvent :=
  (if r.status ≠ 200 then PyOutcome.system_exit
   else if ¬ r.success then PyOutcome.system_exit
   else PyOutcome.ok r,
   [NetEvent.challenge_get])

/-- upload_image: issues the POST; raise_for_status raises an ordinary
HTTPError on a 4xx or 5xx status, and a falsy success field calls
sys.exit(1). -/
def upload_image (r : UploadHttp) : PyOutcome (List Char) × List NetEvent :=
  (if 400 ≤ r.status then PyOutcome.exc
   else if ¬ r.success then PyOutcome.system_exit
   else PyOutcome.ok r.url,
   [NetEvent.upload_post])

/-- The environment one process_file call runs against: whether the
path is a file, the two network responses, and the outcome of the
find_suffix call (which can only return or raise an ordinary
exception). -/
structure FileEnv where
  file_exists : Bool
  challenge : ChallengeHttp
  pow : PyResult (List Char)
  upload : UploadHttp
deriving DecidableEq

/-- process_file: checks os.path.isfile before anything else, then runs
challenge fetch, proof of work and upload inside try/except Exception.
An ordinary exception yields the empty string; SystemExit escapes the
except clause. -/
def process_file (e : FileEnv) : PyOutcome (List Char) × List NetEvent :=
  if e.file_exists then
    match get_challenge e.challenge with
    | (PyOutcome.system_exit, ev) => (PyOutcome.system_exit, ev)
    | (PyOutcome.exc, ev) => (PyOutcome.ok [], ev)
    | (PyOutcome.ok _ch, ev) =>
      match e.pow with
      | PyResult.exc => (PyOutcome.ok [], ev)
      | PyResult.ok _suff =>
        match upload_image e.upload with
        | (PyOutcome.system_exit, ev2) => (PyOutcome.system_exit, ev ++ ev2)
        | (PyOutcome.exc, ev2) => (PyOutcome.ok [], ev ++ ev2)
        | (PyOutcome.ok url, ev2) => (PyOutcome.ok url, ev ++ ev2)
  else (PyOutcome.ok [], [])

/-- How a run of main ends: the final aggregate report with the success
count, or an abort that leaves the given number of subsequent files
unprocessed. -/
inductive RunResult where
  | completed (successful : Nat)
  | aborted (unprocessed : Nat)
deriving DecidableEq

/-- The for-loop over image paths in main: a truthy url increments the
success count; SystemExit (or any uncaught exception) aborts the whole
process, skipping every remaining file and the aggregate report. -/
def main_loop : List FileEnv → Nat → RunResult
  | [], succ => RunResult.completed succ
  | e :: rest, succ =>
    match (process_file e).1 with
    | PyOutcome.system_exit => RunResult.aborted rest.length
    | PyOutcome.exc => RunResult.aborted rest.length
    | PyOutcome.ok url => main_loop rest (if url = [] then succ else succ + 1)

/-- main over a list of per-file environments. -/
def main (envs : List FileEnv) : RunResult :=
  main_loop envs 0

set_option maxRecDepth 100000

theorem mask_bits : ∀ b < 256, ∀ r < 8, 0 < r →
    ((b &&& ((0xFF <<< (8 - r)) &&& 0xFF) = 0) ↔ ∀ t < r, b / 2 ^ (7 - t) % 2 = 0) := by
  decide

theorem byte_bits_zero : ∀ b < 256, (b = 0 ↔ ∀ t < 8, b / 2 ^ (7 - t) % 2 = 0) := by
  decide

theorem checkBytesFrom_true (h : List Nat) :
    ∀ k i, checkBytesFrom h i k = some true ↔ ∀ j, j < k → h[i + j]? = some 0 := by
  intro k
  induction k with
  | zero =>
    intro i
    simp [checkBytesFrom]
  | succ k ih =>
    intro i
    constructor
    · intro hcb
      cases hg : h[i]? with
      | none => simp [checkBytesFrom, hg] at hcb
      | some b =>
        by_cases hb : b = 0
        · subst hb
          intro j hj
          cases j with
          | zero => simpa using hg
          | succ j =>
            have h2 : checkBytesFrom h (i + 1) k = some true := by
              simpa [checkBytesFrom, hg] using hcb
            have h3 := (ih (i + 1)).mp h2 j (by omega)
            have h4 : i + 1 + j = i + (j + 1) := by omega
            rwa [h4] at h3
        · exfalso
          simp [checkBytesFrom, hg, hb] at hcb
    · intro hall
      have hg : h[i]? = some 0 := by simpa using hall 0 (by omega)
      have hrest : checkBytesFrom h (i + 1) k = some true := by
        apply (ih (i + 1)).mpr
        intro j hj
        have h3 := hall (j + 1) (by omega)
        have h4 : i + 1 + j = i + (j + 1) := by omega
        rwa [← h4] at h3
      simp [checkBytesFrom, hg, hrest]

theorem is_valid_hash_true (h : List Nat) (n : Nat) :
    is_valid_hash h n = some true ↔
      (checkBytesFrom h 0 (n / 8) = some true ∧
       (0 < n % 8 → ∃ b, h[n / 8]? = some b ∧
         b &&& ((0xFF <<< (8 - n % 8)) &&& 0xFF) = 0)) := by
  unfold is_valid_hash
  cases hcb : checkBytesFrom h 0 (n / 8) with
  | none => simp [hcb]
  | some b0 =>
    cases b0 with
    | false => simp [hcb]
    | true =>
      by_cases hr : 0 < n % 8
      · cases hg : h[n / 8]? with
        | none => simp [hcb, hr, hg]
        | some b => simp [hcb, hr, hg]
      · simp [hcb, hr]

theorem nthBit_byte (h : List Nat) (j b : Nat) (hg : h[j]? = some b) :
    ∀ t, t < 8 → nthBit h (8 * j + t) = b / 2 ^ (7 - t) % 2 := by
  intro t ht
  unfold nthBit
  have hdiv : (8 * j + t) / 8 = j := by omega
  have hmod : (8 * j + t) % 8 = t := by omega
  rw [hdiv, hmod]
  have hgd : h.getD j 0 = b := by
    rw [List.getD_eq_getElem?_getD, hg]
    rfl
  rw [hgd]

/-- The difficulty predicate accepts a digest exactly when its first n
bits, read most-significant-bit first, are all zero. -/
theorem is_valid_hash_iff_bits (h : List Nat) (n : Nat)
    (hb : ∀ b ∈ h, b < 256) (hn : n ≤ 8 * h.length) :
    is_valid_hash h n = some true ↔ firstBitsZero h n := by
  have hqr : 8 * (n / 8) + n % 8 = n := Nat.div_add_mod n 8
  have hr8 : n % 8 < 8 := Nat.mod_lt n (by norm_num)
  have hqlen : n / 8 ≤ h.length := by omega
  have hbyte : ∀ j, j < h.length → ∃ b, h[j]? = some b ∧ b < 256 := by
    intro j hj
    cases hg : h[j]? with
    | none =>
      have := List.getElem?_eq_none_iff.mp hg
      omega
    | some b => exact ⟨b, rfl, hb b (List.getElem?_mem hg)⟩
  rw [is_valid_hash_true, checkBytesFrom_true]
  unfold firstBitsZero
  constructor
  · rintro ⟨hfull, hmask⟩ i hi
    have hfull' : ∀ j, j < n / 8 → h[j]? = some 0 := by
      intro j hj
      simpa using hfull j hj
    by_cases hiq : i < 8 * (n / 8)
    · have hj : i / 8 < n / 8 := by
        rw [Nat.div_lt_iff_lt_mul (by norm_num)]
        omega
      have h5 := nthBit_byte h (i / 8) 0 (hfull' _ hj) (i % 8) (Nat.mod_lt _ (by norm_num))
      rw [Nat.div_add_mod i 8] at h5
      simpa using h5
    · have hrpos : 0 < n % 8 := by omega
      have hqlt : n / 8 < h.length := by omega
      obtain ⟨b, hg, hb256⟩ := hbyte _ hqlt
      obtain ⟨b2, hg2, hmask0⟩ := hmask hrpos
      rw [hg] at hg2
      injection hg2 with hbb
      subst hbb
      have hbits := (mask_bits b hb256 (n % 8) hr8 hrpos).mp hmask0
      have hieq : i = 8 * (n / 8) + (i - 8 * (n / 8)) := by omega
      rw [hieq, nthBit_byte h (n / 8) b hg _ (by omega)]
      exact hbits _ (by omega)
  · intro hbits
    constructor
    · intro j hj
      simp only [Nat.zero_add]
      obtain ⟨b, hg, hb256⟩ := hbyte j (by omega)
      have hzero : b = 0 := by
        apply (byte_bits_zero b hb256).mpr
        intro t ht
        have h5 := hbits (8 * j + t) (by omega)
        rwa [nthBit_byte h j b hg t ht] at h5
      rw [hg, hzero]
    · intro hrpos
      have hqlt : n / 8 < h.length := by omega
      obtain ⟨b, hg, hb256⟩ := hbyte _ hqlt
      refine ⟨b, hg, ?_⟩
      apply (mask_bits b hb256 (n % 8) hr8 hrpos).mpr
      intro t ht
      have h5 := hbits (8 * (n / 8) + t) (by omega)
      rwa [nthBit_byte h (n / 8) b hg t (by omega)] at h5

theorem stateBytes_length (s : SHAState) : (stateBytes s).length = 32 := rfl

theorem sha256_length (msg : List Nat) : (sha256 msg).length = 32 :=
  stateBytes_length _

theorem wordBytes_lt (w : Nat) : ∀ b ∈ wordBytes w, b < 256 := by
  intro b hb
  simp [wordBytes] at hb
  rcases hb with h | h | h | h <;> omega

theorem stateBytes_lt (s : SHAState) : ∀ b ∈ stateBytes s, b < 256 := by
  intro b hb
  unfold stateBytes at hb
  simp only [List.mem_append] at hb
  rcases hb with ((((((h | h) | h) | h) | h) | h) | h) | h <;> exact wordBytes_lt _ b h

theorem sha256_lt (msg : List Nat) : ∀ b ∈ sha256 msg, b < 256 :=
  stateBytes_lt _

theorem hexDigit_val : ∀ v < 16, hexDigitVal (hexDigit v) = some v := by decide

theorem candidate_length (rng : Nat → Nat) (k : Nat) : (candidate rng k).length = 64 := by
  simp [candidate]

theorem candidate_lt (rng : Nat → Nat) (k : Nat) : ∀ x ∈ candidate rng k, x < 256 := by
  intro x hx
  simp [candidate] at hx
  obtain ⟨j, hj, rfl⟩ := hx
  omega

theorem fromhex_bytesHex : ∀ c : List Nat, (∀ b ∈ c, b < 256) →
    fromhex (bytesHex c) = some c := by
  intro c
  induction c with
  | nil => intro _; rfl
  | cons b rest ih =>
    intro hlt
    have hb : b < 256 := hlt b (by simp)
    have h1 : bytesHex (b :: rest) =
        hexDigit (b / 16) :: hexDigit (b % 16) :: bytesHex rest := by
      simp [bytesHex, byteToHex]
    rw [h1]
    simp only [fromhex, hexDigit_val _ (show b / 16 < 16 by omega),
      hexDigit_val _ (show b % 16 < 16 by omega),
      ih (fun x hx => hlt x (by simp [hx]))]
    simp [Nat.div_add_mod]

theorem fromhex_append : ∀ (a bl : List Char) (x : List Nat), fromhex a = some x →
    fromhex (a ++ bl) = Option.map (fun y => x ++ y) (fromhex bl)
  | [], bl, x, hx => by
    have hx2 : x = [] := by simpa [fromhex] using hx.symm
    subst hx2
    cases hfb : fromhex bl <;> simp [hfb]
  | [c], bl, x, hx => by simp [fromhex] at hx
  | c1 :: c2 :: rest, bl, x, hx => by
    cases h1 : hexDigitVal c1 with
    | none => simp [fromhex, h1] at hx
    | some hi =>
      cases h2 : hexDigitVal c2 with
      | none => simp [fromhex, h1, h2] at hx
      | some lo =>
        cases h3 : fromhex rest with
        | none => simp [fromhex, h1, h2, h3] at hx
        | some bs =>
          have hx2 : x = (16 * hi + lo) :: bs := by
            simpa [fromhex, h1, h2, h3] using hx.symm
          subst hx2
          have ih := fromhex_append rest bl bs h3
          cases hfb : fromhex bl with
          | none => simp [fromhex, h1, h2, h3, List.cons_append, ih, hfb]
          | some y => simp [fromhex, h1, h2, h3, List.cons_append, ih, hfb]

theorem worker_ok (pref : List Char) (n : Nat) (rng : Nat → Nat) :
    ∀ fuel k b s, worker pref n rng k fuel = some (PyResult.ok (b, s)) →
      b = true ∧ ∃ c, (∀ x ∈ c, x < 256) ∧ c.length = 64 ∧ s = bytesHex c ∧
        ∃ bs, fromhex (pref ++ s) = some bs ∧ is_valid_hash (sha256 bs) n = some true := by
  intro fuel
  induction fuel with
  | zero =>
    intro k b s hw
    simp [worker] at hw
  | succ fuel ih =>
    intro k b s hw
    cases hfh : fromhex (pref ++ bytesHex (candidate rng k)) with
    | none => simp [worker, hfh] at hw
    | some bs =>
      cases hv : is_valid_hash (sha256 bs) n with
      | none => simp [worker, hfh, hv] at hw
      | some vb =>
        cases vb with
        | true =>
          simp [worker, hfh, hv] at hw
          obtain ⟨hb, hs⟩ := hw
          subst hb
          subst hs
          exact ⟨rfl, candidate rng k, candidate_lt rng k, candidate_length rng k,
            rfl, bs, hfh, hv⟩
        | false =>
          have hw2 : worker pref n rng (k + 1) fuel = some (PyResult.ok (b, s)) := by
            simpa [worker, hfh, hv] using hw
          exact ih (k + 1) b s hw2

example : sha256 [] =
    [0xe3, 0xb0, 0xc4, 0x42, 0x98, 0xfc, 0x1c, 0x14, 0x9a, 0xfb, 0xf4, 0xc8,
     0x99, 0x6f, 0xb9, 0x24, 0x27, 0xae, 0x41, 0xe4, 0x64, 0x9b, 0x93, 0x4c,
     0xa4, 0x95, 0x99, 0x1b, 0x78, 0x52, 0xb8, 0x55] := by
  rfl

example : sha256 [0x61, 0x62, 0x63] =
    [0xba, 0x78, 0x16, 0xbf, 0x8f, 0x01, 0xcf, 0xea, 0x41, 0x41, 0x40, 0xde,
     0x5d, 0xae, 0x22, 0x23, 0xb0, 0x03, 0x61, 0xa3, 0x96, 0x17, 0x7a, 0x9c,
     0xb4, 0x10, 0xff, 0x61, 0xf2, 0x00, 0x15, 0xad] := by
  rfl

/-- A file whose challenge request returns HTTP 200 with success=false. -/
def envChallengeFailed : FileEnv :=
  ⟨true, ⟨200, false, 0, [], [], []⟩, PyResult.ok [], ⟨200, true, []⟩⟩

/-- A file whose whole pipeline succeeds with a nonempty url. -/
def envAllGood : FileEnv :=
  ⟨true, ⟨200, true, 0, [], [], []⟩, PyResult.ok [], ⟨200, true, ['u']⟩⟩

/-- Claim C1: for every difficultyBits n with n ≤ 256 and at least one
worker launched, any suffix returned by find_suffix decodes to a byte
sequence of fixed length 64, and the SHA-256 digest of the raw
concatenation of the decoded prefix bytes and the suffix bytes has its
first n bits equal to zero, most-significant-bit first within each byte,
across byte boundaries. -/
theorem find_suffix_valid (pref : List Char) (pb : List Nat) (n : Nat)
    (task_id : List Char) (cpu : Option Nat) (rngs : Nat → Nat → Nat)
    (fd fuel : Nat) (suff : List Char)
    (hn : n ≤ 256) (hw : 1 ≤ num_workers cpu) (hp : fromhex pref = some pb)
    (hres : find_suffix pref n task_id cpu rngs fd fuel = some (PyResult.ok suff)) :
    ∃ s, fromhex suff = some s ∧ s.length = 64 ∧
      firstBitsZero (sha256 (pb ++ s)) n := by
  unfold find_suffix at hres
  cases hrange : List.range (num_workers cpu) with
  | nil =>
    have h0 : num_workers cpu = 0 := by simpa using congrArg List.length hrange
    omega
  | cons a as =>
    rw [hrange] at hres
    cases hwk : worker pref n (rngs (fd % num_workers cpu)) 0 fuel with
    | none => rw [hwk] at hres; simp at hres
    | some r =>
      cases r with
      | exc => rw [hwk] at hres; simp at hres
      | ok p =>
        obtain ⟨b, s⟩ := p
        rw [hwk] at hres
        cases b with
        | false => simp at hres
        | true =>
          simp at hres
          subst hres
          obtain ⟨-, c, hclt, hclen, hseq, bs, hfh, hv⟩ :=
            worker_ok pref n _ fuel 0 true s hwk
          subst hseq
          have hsf : fromhex (bytesHex c) = some c := fromhex_bytesHex c hclt
          refine ⟨c, hsf, hclen, ?_⟩
          have happ := fromhex_append pref (bytesHex c) pb hp
          rw [hsf] at happ
          rw [happ] at hfh
          have hbs : pb ++ c = bs := by simpa using hfh
          rw [← hbs] at hv
          exact (is_valid_hash_iff_bits _ n (sha256_lt _)
            (by rw [sha256_length]; omega)).mp hv

theorem find_suffix_valid_witness :
    ∃ s, fromhex (bytesHex (candidate (fun _ => 0) 0)) = some s ∧ s.length = 64 ∧
      firstBitsZero (sha256 ([] ++ s)) 0 :=
  find_suffix_valid [] [] 0 [] (some 2) (fun _ _ => 0) 0 1
    (bytesHex (candidate (fun _ => 0) 0))
    (by omega) (by decide) rfl (by decide)

/-- Claim C2: for a digest long enough to supply the inspected bytes,
is_valid_hash returns true exactly when the bytes at indices below n / 8
are all zero and, when n % 8 > 0, the byte at index n / 8 masked with
(0xFF << (8 - n % 8)) & 0xFF is zero; at n = 8 the result depends only
on byte 0 being zero, independent of the later bytes, and at n = 11 it
requires byte 0 == 0 and the top 3 bits of byte 1 == 0, regardless of
byte 1's low 5 bits and of later bytes. -/
theorem is_valid_hash_characterization (h : List Nat) (n : Nat)
    (hn : n ≤ 8 * h.length) :
    (is_valid_hash h n = some true ↔
      ((∀ i, i < n / 8 → h.getD i 0 = 0) ∧
       (0 < n % 8 → h.getD (n / 8) 0 &&& ((0xFF <<< (8 - n % 8)) &&& 0xFF) = 0))) ∧
    (∀ b0 : Nat, ∀ rest rest2 : List Nat,
      is_valid_hash (b0 :: rest) 8 = is_valid_hash (b0 :: rest2) 8 ∧
      (is_valid_hash (b0 :: rest) 8 = some true ↔ b0 = 0)) ∧
    (∀ b0 b1 b1' : Nat, ∀ rest rest2 : List Nat,
      (b1 &&& 0xE0 = b1' &&& 0xE0 →
        is_valid_hash (b0 :: b1 :: rest) 11 = is_valid_hash (b0 :: b1' :: rest2) 11) ∧
      (is_valid_hash (b0 :: b1 :: rest) 11 = some true ↔ (b0 = 0 ∧ b1 &&& 0xE0 = 0))) := by
  have hget : ∀ j, j < h.length → h[j]? = some (h.getD j 0) := by
    intro j hj
    rw [List.getD_eq_getElem?_getD, List.getElem?_eq_getElem hj]
    rfl
  refine ⟨?_, ?_, ?_⟩
  · rw [is_valid_hash_true, checkBytesFrom_true]
    constructor
    · rintro ⟨h1, h2⟩
      constructor
      · intro i hi
        have h3 := h1 i hi
        rw [Nat.zero_add, hget i (by omega)] at h3
        injection h3
      · intro hr
        obtain ⟨b, hgb, hm⟩ := h2 hr
        rw [hget _ (by omega)] at hgb
        injection hgb with hgb
        rw [hgb]
        exact hm
    · rintro ⟨h1, h2⟩
      constructor
      · intro j hj
        rw [Nat.zero_add, hget j (by omega), h1 j hj]
      · intro hr
        exact ⟨h.getD (n / 8) 0, hget _ (by omega), h2 hr⟩
  · intro b0 rest rest2
    constructor
    · by_cases hb : b0 = 0 <;> simp [is_valid_hash, checkBytesFrom, hb]
    · by_cases hb : b0 = 0 <;> simp [is_valid_hash, checkBytesFrom, hb]
  · intro b0 b1 b1' rest rest2
    constructor
    · intro hmaskeq
      by_cases hb : b0 = 0 <;>
        simp [is_valid_hash, checkBytesFrom, hb,
          show (8160 &&& 255 : Nat) = 224 by decide, hmaskeq]
    · by_cases hb : b0 = 0 <;>
        simp [is_valid_hash, checkBytesFrom, hb,
          show (8160 &&& 255 : Nat) = 224 by decide]

theorem is_valid_hash_characterization_witness :
    is_valid_hash [0, 0] 11 = some true :=
  ((is_valid_hash_characterization [0, 0] 11 (by decide)).1).mpr (by decide)

/-- Claim C3 (code behaviour at the failing input): at difficultyBits
257 the worker loop never returns a solution, for any prefix, random
stream and amount of fuel: every digest has 32 bytes, so the predicate
either rejects or raises IndexError, and the loop keeps running; the
code has no UnsatisfiableDifficulty failure path at all. -/
theorem worker_never_succeeds_unsat (pref : List Char) (rng : Nat → Nat) :
    ∀ fuel k, worker pref 257 rng k fuel = none ∨
      worker pref 257 rng k fuel = some PyResult.exc := by
  have h257 : ∀ bs : List Nat, ¬ is_valid_hash (sha256 bs) 257 = some true := by
    intro bs hv
    rw [is_valid_hash_true] at hv
    obtain ⟨-, hmask⟩ := hv
    obtain ⟨b, hgb, -⟩ := hmask (by norm_num)
    have hnone : (sha256 bs)[257 / 8]? = none := by
      rw [List.getElem?_eq_none_iff, sha256_length]
    rw [hnone] at hgb
    exact Option.noConfusion hgb
  intro fuel
  induction fuel with
  | zero => intro k; left; rfl
  | succ fuel ih =>
    intro k
    cases hfh : fromhex (pref ++ bytesHex (candidate rng k)) with
    | none => right; simp [worker, hfh]
    | some bs =>
      cases hv : is_valid_hash (sha256 bs) 257 with
      | none => right; simp [worker, hfh, hv]
      | some vb =>
        cases vb with
        | true => exact absurd hv (h257 bs)
        | false =>
          rcases ih (k + 1) with h | h
          · left; simp [worker, hfh, hv, h]
          · right; simp [worker, hfh, hv, h]

/-- Claim C4, counterexample: with an available-parallelism hint of 1
the chosen worker count is 0, so the claimed floor of 1 does not hold. -/
theorem num_workers_floor_cex : ¬ 1 ≤ num_workers (some 1) := by decide

/-- Claim C4, amended: the worker count is min(32, (hint or 5) - 1)
with no floor: it never exceeds 32, and it is zero exactly when the
hint is 1 (in particular it is 0, not 1, on a single-cpu machine). -/
theorem num_workers_amended :
    (∀ cpu, num_workers cpu ≤ 32) ∧
    (∀ cpu, num_workers cpu = 0 ↔ cpu = some 1) ∧
    num_workers (some 1) = 0 := by
  refine ⟨?_, ?_, rfl⟩
  · intro cpu
    unfold num_workers
    exact Nat.min_le_left _ _
  · intro cpu
    cases cpu with
    | none => decide
    | some c =>
      by_cases hc : c = 0
      · subst hc; decide
      · by_cases hc1 : c = 1
        · subst hc1; decide
        · have hnw : num_workers (some c) = min 32 (c - 1) := by
            simp [num_workers, cpu_hint, hc]
          constructor
          · intro h0
            rw [hnw] at h0
            rcases Nat.min_eq_zero_iff.mp h0 with h | h <;> omega
          · intro h
            injection h with h2
            exact absurd h2 hc1

/-- Claim C5 (code behaviour at the failing input): when the first
file's challenge response has success=false, get_challenge calls
sys.exit(1); SystemExit escapes the except Exception clause in
process_file, so the run aborts with the second file never processed
and no aggregate report, whereas two good files complete with count 2. -/
theorem challenge_failure_aborts_run :
    main [envChallengeFailed, envAllGood] = RunResult.aborted 1 ∧
    main [envAllGood, envAllGood] = RunResult.completed 2 := by
  constructor <;> rfl

/-- Claim C6: when the input path is not a file, process_file returns
the empty string having issued no network request at all, whatever the
network responses and proof-of-work outcome would have been. -/
theorem missing_file_no_network (ch : ChallengeHttp) (pow : PyResult (List Char))
    (up : UploadHttp) :
    process_file ⟨false, ch, pow, up⟩ = (PyOutcome.ok [], ([] : List NetEvent)) := rfl

/-- Claim C7: at difficultyBits 0 the predicate accepts every digest,
and a worker returns successfully with the very first candidate drawn,
for any prefix that decodes as hex. -/
theorem zero_difficulty_immediate (h : List Nat) (pref : List Char)
    (pb : List Nat) (rng : Nat → Nat) (k fuel : Nat)
    (hp : fromhex pref = some pb) :
    is_valid_hash h 0 = some true ∧
    worker pref 0 rng k (fuel + 1) =
      some (PyResult.ok (true, bytesHex (candidate rng k))) := by
  constructor
  · rfl
  · have hfh : fromhex (pref ++ bytesHex (candidate rng k)) =
        some (pb ++ candidate rng k) := by
      rw [fromhex_append pref _ pb hp, fromhex_bytesHex _ (candidate_lt rng k)]
      rfl
    simp [worker, hfh,
      show is_valid_hash (sha256 (pb ++ candidate rng k)) 0 = some true from rfl]

theorem zero_difficulty_immediate_witness :
    is_valid_hash [] 0 = some true ∧
    worker [] 0 (fun _ => 0) 0 1 =
      some (PyResult.ok (true, bytesHex (candidate (fun _ => 0) 0))) :=
  zero_difficulty_immediate [] [] [] (fun _ => 0) 0 0 rfl

/-- Claim C8: the difficulty predicate is antitone in the difficulty:
within the digest's bit length, a digest accepted at n bits is accepted
at any m ≤ n bits. -/
theorem is_valid_hash_antitone (h : List Nat) (m n : Nat)
    (hb : ∀ b ∈ h, b < 256) (hmn : m ≤ n) (hn : n ≤ 8 * h.length)
    (hv : is_valid_hash h n = some true) : is_valid_hash h m = some true := by
  rw [is_valid_hash_iff_bits h m hb (by omega)]
  rw [is_valid_hash_iff_bits h n hb hn] at hv
  intro i hi
  exact hv i (by omega)

theorem is_valid_hash_antitone_witness : is_valid_hash [0, 0, 3] 8 = some true :=
  is_valid_hash_antitone [0, 0, 3] 8 16 (by decide) (by omega) (by decide) (by decide)

/-- Claim C9: find_suffix accepts a task_id argument but never reads
it: with identical prefix, difficulty, worker count, randomness and
schedule, any two task_id values give the same result. -/
theorem find_suffix_ignores_task_id (pref : List Char) (n : Nat)
    (t1 t2 : List Char) (cpu : Option Nat) (rngs : Nat → Nat → Nat)
    (fd fuel : Nat) :
    find_suffix pref n t1 cpu rngs fd fuel =
      find_suffix pref n t2 cpu rngs fd fuel := rfl

/-- Claim C10: with a cpu hint of 1 the computed worker count is 0, no
workers are submitted, and find_suffix returns the empty string without
any hashing (the result is the same for every random stream and any
fuel, including none): a value that is not a 64-byte hex suffix and
here fails the difficulty predicate already at 8 bits. -/
theorem zero_workers_returns_empty :
    num_workers (some 1) = 0 ∧
    List.range (num_workers (some 1)) = [] ∧
    (∀ (pref : List Char) (n : Nat) (task_id : List Char)
       (rngs : Nat → Nat → Nat) (fd fuel : Nat),
      find_suffix pref n task_id (some 1) rngs fd fuel = some (PyResult.ok [])) ∧
    ([] : List Char).length ≠ 128 ∧
    is_valid_hash (sha256 []) 8 = some false := by
  refine ⟨rfl, rfl, ?_, by decide, by decide⟩
  intro pref n task_id rngs fd fuel
  rfl

end UploadImage
